import Mathlib

/-!
Shallow embedding of `resumableUpload` from
`src/resumableUploadForGoogleAPIs.js`.

The JS function negotiates a resumable-upload session, re-chunks the
source stream into `chunkSize`-byte pieces, PUTs each piece with a
`Content-Range` header, and interprets the server's responses
(200 = done, 308 = continue, any other status = retry, at most 3 retries).

Correspondence with the source:
* `resumableUpload` / `negotiateThenUpload` — lines 30-69 (argument
  checks, source-variant selection, session negotiation);
* `uploadLoop` — the recursive `upload` closures, lines 83-123 and
  135-174 (one chunk, bounded retry).  The JS counter `upCount` counts
  up from 0 and the code rejects when `upCount == 3` fails again; here
  `retriesLeft` counts down from 3, so `upCount == 3` is `retriesLeft = 0`;
* `dataPhase` — the `streamTrans.on("data", ...)` handler, lines 74-128:
  per fragment, append to the buffer and, when the buffer holds at least
  `chunkSize` bytes, upload exactly one `chunkSize`-byte slice and keep
  the rest;
* `endPhase` — the `streamTrans.on("end", ...)` handler, lines 129-178:
  upload the leftover buffer once when it is non-empty;
* `runUpload` — the two handlers run over a finite fragment sequence.
  The `pause()` / `resume()` discipline of the source (pause before each
  upload, resume only on 308) makes the pipeline sequential and makes a
  resolve or reject final, which is why the model stops consuming
  fragments at the first terminal transition.

Bytes are `Nat`, the byte source is a finite list of fragments, and the
server is a function from the index of a PUT request to its response, so
one run of the model fixes one schedule of server responses.
`JSON.parse` is an external library function; it is modelled by a
parameter `parse : String → Option α` (`none` = the text is not valid
JSON, mirroring the `try { JSON.parse } catch` in lines 101-105).
-/

namespace ResumableUpload

abbrev Byte := Nat

/-- An HTTP response to one chunk PUT: the status code and the body text
(`await res.text()` in the source). -/
structure Response where
  status : Nat
  body : String
deriving DecidableEq

/-- Result of `JSON.parse(text)` guarded by try/catch (lines 101-105 and
153-157): the parsed value when the body is valid JSON, the raw text
otherwise. -/
inductive JsonOrText (α : Type) where
  | json (v : α)
  | text (s : String)
deriving DecidableEq

def parseOrRaw (parse : String → Option α) (s : String) : JsonOrText α :=
  match parse s with
  | some v => JsonOrText.json v
  | none => JsonOrText.text s

/-- One chunk PUT request (lines 89-97 and 141-149): PUT to the session
URL with the single header
`Content-Range: bytes ${startByte}-${startByte + dataChunk.length - 1}/${dataSize}`
and the chunk bytes as body.  The numeric range fields record the same
values that the header string is built from. -/
structure PutRequest where
  url : String
  contentRange : String
  rangeStart : Int
  rangeEnd : Int
  rangeTotal : Int
  body : List Byte
deriving DecidableEq

def mkPut (location : String) (startByte : Nat) (chunk : List Byte) (dataSize : Int) :
    PutRequest :=
  { url := location
    contentRange := "bytes " ++ toString (startByte : Int) ++ "-"
      ++ toString ((startByte : Int) + (chunk.length : Int) - 1) ++ "/" ++ toString dataSize
    rangeStart := (startByte : Int)
    rangeEnd := (startByte : Int) + (chunk.length : Int) - 1
    rangeTotal := dataSize
    body := chunk }

/-- Ambient data of the upload stage: the JSON parser, the server's
response schedule (indexed by PUT request number), the session URL
(`location`, line 64) and `dataSize`. -/
structure Env (α : Type) where
  parse : String → Option α
  server : Nat → Response
  location : String
  dataSize : Int

/-- Outcome of the per-chunk `upload` closure: `resolved` = the outer
promise was resolved (status 200), `advanced` = 308, continue with the
next chunk, `rejected` = retries exhausted, promise rejected. -/
inductive AttemptOut (α : Type) where
  | resolved (v : JsonOrText α)
  | advanced
  | rejected (status : Nat) (body : String)
deriving DecidableEq

structure LoopOut (α : Type) where
  out : AttemptOut α
  log : List PutRequest
  reqIndex : Nat
  startByte : Nat
deriving DecidableEq

/-- The recursive `upload` closure (lines 83-123; the last-chunk copy in
lines 135-174 is textually identical).  Each call issues one PUT built
from the unchanged `startByte` and `dataChunk`; the response is examined
as in the source: `res.ok && res.status == 200` resolves (`res.ok` is
status 200-299), `res.status == 308` advances `startByte` by the chunk
length, otherwise the request is retried until `upCount == 3`
(`retriesLeft = 0`), when the promise is rejected with the last
response's status and body text. -/
def uploadLoop (env : Env α) (startByte : Nat) (chunk : List Byte)
    (retriesLeft reqIndex : Nat) : LoopOut α :=
  if (200 ≤ (env.server reqIndex).status ∧ (env.server reqIndex).status ≤ 299)
      ∧ (env.server reqIndex).status = 200 then
    { out := AttemptOut.resolved (parseOrRaw env.parse (env.server reqIndex).body)
      log := [mkPut env.location startByte chunk env.dataSize]
      reqIndex := reqIndex + 1
      startByte := startByte }
  else if (env.server reqIndex).status = 308 then
    { out := AttemptOut.advanced
      log := [mkPut env.location startByte chunk env.dataSize]
      reqIndex := reqIndex + 1
      startByte := startByte + chunk.length }
  else
    match retriesLeft with
    | 0 =>
      { out := AttemptOut.rejected (env.server reqIndex).status (env.server reqIndex).body
        log := [mkPut env.location startByte chunk env.dataSize]
        reqIndex := reqIndex + 1
        startByte := startByte }
    | n + 1 =>
      { out := (uploadLoop env startByte chunk n (reqIndex + 1)).out
        log := mkPut env.location startByte chunk env.dataSize
          :: (uploadLoop env startByte chunk n (reqIndex + 1)).log
        reqIndex := (uploadLoop env startByte chunk n (reqIndex + 1)).reqIndex
        startByte := (uploadLoop env startByte chunk n (reqIndex + 1)).startByte }

/-- Final state of the returned promise: resolved, rejected, or never
settled (`hung`) — the latter happens when the stream is exhausted and no
200 is ever received (the source then simply stops issuing requests). -/
inductive RunResult (α : Type) where
  | resolved (v : JsonOrText α)
  | rejected (status : Nat) (body : String)
  | hung
deriving DecidableEq

structure PhaseOut (α : Type) where
  terminal : Option (RunResult α)
  log : List PutRequest
  buffer : List Byte
  startByte : Nat
  reqIndex : Nat
deriving DecidableEq

/-- The `streamTrans.on("data", ...)` handler (lines 74-128), run over
the whole fragment sequence.  Per fragment: `bufferData.push(chunk)`,
`temp = Buffer.concat(bufferData)`; if `temp.length >= chunkSize`, slice
`temp.slice(0, chunkSize)`, upload it with bounded retry, and keep
`temp.slice(chunkSize)` as the new buffer.  A resolve or reject is
terminal: the stream is left paused (resume happens only on 308), so no
further fragment is consumed. -/
def dataPhase (env : Env α) (chunkSize : Nat) :
    List (List Byte) → List Byte → Nat → Nat → PhaseOut α
  | [], buf, sb, ri =>
    { terminal := none, log := [], buffer := buf, startByte := sb, reqIndex := ri }
  | f :: fs, buf, sb, ri =>
    let temp := buf ++ f
    if chunkSize ≤ temp.length then
      let dataChunk := temp.take chunkSize
      let left := temp.drop chunkSize
      let o := uploadLoop env sb dataChunk 3 ri
      match o.out with
      | AttemptOut.advanced =>
        let rest := dataPhase env chunkSize fs left o.startByte o.reqIndex
        { terminal := rest.terminal, log := o.log ++ rest.log, buffer := rest.buffer
          startByte := rest.startByte, reqIndex := rest.reqIndex }
      | AttemptOut.resolved v =>
        { terminal := some (RunResult.resolved v), log := o.log, buffer := left
          startByte := o.startByte, reqIndex := o.reqIndex }
      | AttemptOut.rejected s b =>
        { terminal := some (RunResult.rejected s b), log := o.log, buffer := left
          startByte := o.startByte, reqIndex := o.reqIndex }
    else
      dataPhase env chunkSize fs temp sb ri

structure EndOut (α : Type) where
  result : RunResult α
  log : List PutRequest
  startByte : Nat
  reqIndex : Nat
deriving DecidableEq

/-- The `streamTrans.on("end", ...)` handler (lines 129-178):
`dataChunk = Buffer.concat(bufferData)`; when it is non-empty it is
uploaded once with the same bounded retry.  A 308 to this last chunk only
advances `startByte` and resumes an already-ended stream, so nothing
further happens and the promise never settles (`hung`). -/
def endPhase (env : Env α) (buffer : List Byte) (sb ri : Nat) : EndOut α :=
  if 0 < buffer.length then
    match (uploadLoop env sb buffer 3 ri).out with
    | AttemptOut.resolved v =>
      { result := RunResult.resolved v, log := (uploadLoop env sb buffer 3 ri).log
        startByte := (uploadLoop env sb buffer 3 ri).startByte
        reqIndex := (uploadLoop env sb buffer 3 ri).reqIndex }
    | AttemptOut.rejected s b =>
      { result := RunResult.rejected s b, log := (uploadLoop env sb buffer 3 ri).log
        startByte := (uploadLoop env sb buffer 3 ri).startByte
        reqIndex := (uploadLoop env sb buffer 3 ri).reqIndex }
    | AttemptOut.advanced =>
      { result := RunResult.hung, log := (uploadLoop env sb buffer 3 ri).log
        startByte := (uploadLoop env sb buffer 3 ri).startByte
        reqIndex := (uploadLoop env sb buffer 3 ri).reqIndex }
  else
    { result := RunResult.hung, log := [], startByte := sb, reqIndex := ri }

structure RunOut (α : Type) where
  result : RunResult α
  log : List PutRequest
  startByte : Nat
  reqIndex : Nat
deriving DecidableEq

def runUploadAux (env : Env α) (d : PhaseOut α) : RunOut α :=
  match d.terminal with
  | some r => { result := r, log := d.log, startByte := d.startByte, reqIndex := d.reqIndex }
  | none =>
    { result := (endPhase env d.buffer d.startByte d.reqIndex).result
      log := d.log ++ (endPhase env d.buffer d.startByte d.reqIndex).log
      startByte := (endPhase env d.buffer d.startByte d.reqIndex).startByte
      reqIndex := (endPhase env d.buffer d.startByte d.reqIndex).reqIndex }

/-- The upload stage of `resumableUpload` after a successful negotiation
(lines 71-178): `startByte = 0`, empty buffer, the data handler over all
fragments, then the end handler on the leftover buffer. -/
def runUpload (env : Env α) (chunkSize : Nat) (frags : List (List Byte)) : RunOut α :=
  runUploadAux env (dataPhase env chunkSize frags [] 0 0)

/-- The configuration fields of the argument object that the validation
code looks at, with the source's defaults (lines 21-29: `filePath = ""`,
`fileUrl = ""`, `resumableUrl = ""`, `dataSize = 0`). -/
structure Config where
  filePath : String
  fileUrl : String
  resumableUrl : String
  dataSize : Int
deriving DecidableEq

/-- The two `throw new Error(...)` validation failures (lines 32-34 and
42-44). -/
inductive ConfigError where
  | missingResumableUrlOrDataSize
  | missingSource
deriving DecidableEq

/-- The response to the session-open POST (lines 57-61): status, body
(already parsed, the source always runs `await res2.json()` on it) and
the `location` header. -/
structure SessionResponse (β : Type) where
  status : Nat
  bodyJson : β
  location : String
deriving DecidableEq

inductive OpResult (α β : Type) where
  | configError (e : ConfigError)
  | sessionError (status : Nat) (body : β)
  | uploaded (r : RunResult α)
deriving DecidableEq

/-- Outcome of the whole operation together with its network activity:
`gets` counts the GET to `fileUrl` of the url source variant (line 40),
`posts` counts the session-open POST (line 57), `log` is the ordered
list of chunk PUT requests. -/
structure OpOut (α β : Type) where
  result : OpResult α β
  gets : Nat
  posts : Nat
  log : List PutRequest
deriving DecidableEq

/-- Session negotiation (lines 52-69): one POST to `resumableUrl`; on a
2xx response (`res2.ok`) the location header becomes the session URL and
the upload stage runs; otherwise the promise is rejected with
`{ status, error: await res2.json() }` and no chunk PUT is ever issued. -/
def sessionEnv (parse : String → Option α) (server : Nat → Response)
    (sess : SessionResponse β) (dataSize : Int) : Env α :=
  { parse := parse, server := server, location := sess.location, dataSize := dataSize }

def negotiateThenUpload (parse : String → Option α) (c : Config) (chunkSize : Nat)
    (sess : SessionResponse β) (server : Nat → Response) (frags : List (List Byte))
    (gets : Nat) : OpOut α β :=
  if 200 ≤ sess.status ∧ sess.status ≤ 299 then
    { result := OpResult.uploaded
        (runUpload (sessionEnv parse server sess c.dataSize) chunkSize frags).result
      gets := gets
      posts := 1
      log := (runUpload (sessionEnv parse server sess c.dataSize) chunkSize frags).log }
  else
    { result := OpResult.sessionError sess.status sess.bodyJson
      gets := gets, posts := 1, log := [] }

/-- The whole operation (lines 30-178).  Validation order as in the
source: first `resumableUrl == "" || dataSize == 0` (line 32), then the
source-variant selection (lines 37-44) — `filePath` alone reads the
local file (no extra HTTP request), `fileUrl` alone issues one GET, any
other combination throws; only then the session POST. -/
def resumableUpload (parse : String → Option α) (c : Config) (chunkSize : Nat)
    (sess : SessionResponse β) (server : Nat → Response) (frags : List (List Byte)) :
    OpOut α β :=
  if c.resumableUrl = "" ∨ c.dataSize = 0 then
    { result := OpResult.configError ConfigError.missingResumableUrlOrDataSize
      gets := 0, posts := 0, log := [] }
  else if c.filePath ≠ "" ∧ c.fileUrl = "" then
    negotiateThenUpload parse c chunkSize sess server frags 0
  else if c.filePath = "" ∧ c.fileUrl ≠ "" then
    negotiateThenUpload parse c chunkSize sess server frags 1
  else
    { result := OpResult.configError ConfigError.missingSource
      gets := 0, posts := 0, log := [] }

/-- A request log annotated with the evolution of the confirmed byte
offset: every request is issued at the current offset (its `rangeStart`
is exactly the bytes confirmed so far), and between consecutive requests
the offset either stays unchanged (a retry of the same chunk, or a
terminal response) or advances by the length of the body just sent
(a 308 acknowledgement). -/
inductive ReqTrace : Nat → List PutRequest → Nat → Prop where
  | nil (sb : Nat) : ReqTrace sb [] sb
  | stay (sb sbEnd : Nat) (r : PutRequest) (log : List PutRequest) :
      r.rangeStart = (sb : Int) → ReqTrace sb log sbEnd → ReqTrace sb (r :: log) sbEnd
  | adv (sb sbEnd : Nat) (r : PutRequest) (log : List PutRequest) :
      r.rangeStart = (sb : Int) → ReqTrace (sb + r.body.length) log sbEnd →
      ReqTrace sb (r :: log) sbEnd

/-- A server that answers every request with the same fixed response
(used to instantiate the theorems at concrete schedules). -/
def constEnv (status : Nat) (body : String) (dataSize : Int) : Env Nat :=
  { parse := fun _ => none
    server := fun _ => { status := status, body := body }
    location := "https://upload.example/session"
    dataSize := dataSize }

/-- Concrete configuration with a negative `dataSize` (otherwise valid,
file-variant source). -/
def cfgNegativeSize : Config :=
  { filePath := "file.dat", fileUrl := "", resumableUrl := "https://api.example/u",
    dataSize := -1 }

/-- Concrete configuration in which neither `filePath` nor `fileUrl` is
given. -/
def cfgNoSource : Config :=
  { filePath := "", fileUrl := "", resumableUrl := "https://api.example/u", dataSize := 5 }

/-- Concrete valid file-variant configuration. -/
def cfgFileSource : Config :=
  { filePath := "file.dat", fileUrl := "", resumableUrl := "https://api.example/u",
    dataSize := 5 }

/-- Concrete failing session-open response (status 500, parsed body 7). -/
def sess500 : SessionResponse Nat :=
  { status := 500, bodyJson := 7, location := "https://api.example/s" }

/-! ### Step equations for `uploadLoop` -/

theorem uploadLoop_200 (env : Env α) (sb : Nat) (chunk : List Byte) (n ri : Nat)
    (h : (env.server ri).status = 200) :
    uploadLoop env sb chunk n ri =
      { out := AttemptOut.resolved (parseOrRaw env.parse (env.server ri).body)
        log := [mkPut env.location sb chunk env.dataSize]
        reqIndex := ri + 1
        startByte := sb } := by
  rw [uploadLoop.eq_def, if_pos ⟨⟨by omega, by omega⟩, h⟩]

theorem uploadLoop_308 (env : Env α) (sb : Nat) (chunk : List Byte) (n ri : Nat)
    (h : (env.server ri).status = 308) :
    uploadLoop env sb chunk n ri =
      { out := AttemptOut.advanced
        log := [mkPut env.location sb chunk env.dataSize]
        reqIndex := ri + 1
        startByte := sb + chunk.length } := by
  rw [uploadLoop.eq_def, if_neg (by omega), if_pos h]

theorem uploadLoop_fail_zero (env : Env α) (sb : Nat) (chunk : List Byte) (ri : Nat)
    (h200 : (env.server ri).status ≠ 200) (h308 : (env.server ri).status ≠ 308) :
    uploadLoop env sb chunk 0 ri =
      { out := AttemptOut.rejected (env.server ri).status (env.server ri).body
        log := [mkPut env.location sb chunk env.dataSize]
        reqIndex := ri + 1
        startByte := sb } := by
  rw [uploadLoop.eq_def, if_neg (fun hc => h200 hc.2), if_neg h308]

theorem uploadLoop_fail_succ (env : Env α) (sb : Nat) (chunk : List Byte) (n ri : Nat)
    (h200 : (env.server ri).status ≠ 200) (h308 : (env.server ri).status ≠ 308) :
    uploadLoop env sb chunk (n + 1) ri =
      { out := (uploadLoop env sb chunk n (ri + 1)).out
        log := mkPut env.location sb chunk env.dataSize
          :: (uploadLoop env sb chunk n (ri + 1)).log
        reqIndex := (uploadLoop env sb chunk n (ri + 1)).reqIndex
        startByte := (uploadLoop env sb chunk n (ri + 1)).startByte } := by
  rw [uploadLoop.eq_def, if_neg (fun hc => h200 hc.2), if_neg h308]

/-! ### Basic facts about `uploadLoop` -/

theorem uploadLoop_log_replicate (env : Env α) (sb : Nat) (chunk : List Byte) :
    ∀ n ri, (uploadLoop env sb chunk n ri).log =
      List.replicate (uploadLoop env sb chunk n ri).log.length
        (mkPut env.location sb chunk env.dataSize) := by
  intro n
  induction n with
  | zero =>
    intro ri
    by_cases h200 : (env.server ri).status = 200
    · rw [uploadLoop_200 env sb chunk 0 ri h200]; simp
    by_cases h308 : (env.server ri).status = 308
    · rw [uploadLoop_308 env sb chunk 0 ri h308]; simp
    · rw [uploadLoop_fail_zero env sb chunk ri h200 h308]; simp
  | succ n ih =>
    intro ri
    by_cases h200 : (env.server ri).status = 200
    · rw [uploadLoop_200 env sb chunk (n + 1) ri h200]; simp
    by_cases h308 : (env.server ri).status = 308
    · rw [uploadLoop_308 env sb chunk (n + 1) ri h308]; simp
    · rw [uploadLoop_fail_succ env sb chunk n ri h200 h308]
      simp only [List.length_cons, List.replicate_succ]
      exact congrArg _ (ih (ri + 1))

theorem uploadLoop_log_ne_nil (env : Env α) (sb : Nat) (chunk : List Byte) (n ri : Nat) :
    (uploadLoop env sb chunk n ri).log ≠ [] := by
  cases n with
  | zero =>
    by_cases h200 : (env.server ri).status = 200
    · rw [uploadLoop_200 env sb chunk 0 ri h200]; simp
    by_cases h308 : (env.server ri).status = 308
    · rw [uploadLoop_308 env sb chunk 0 ri h308]; simp
    · rw [uploadLoop_fail_zero env sb chunk ri h200 h308]; simp
  | succ n =>
    by_cases h200 : (env.server ri).status = 200
    · rw [uploadLoop_200 env sb chunk (n + 1) ri h200]; simp
    by_cases h308 : (env.server ri).status = 308
    · rw [uploadLoop_308 env sb chunk (n + 1) ri h308]; simp
    · rw [uploadLoop_fail_succ env sb chunk n ri h200 h308]; simp

theorem uploadLoop_reqIndex (env : Env α) (sb : Nat) (chunk : List Byte) :
    ∀ n ri, (uploadLoop env sb chunk n ri).reqIndex =
      ri + (uploadLoop env sb chunk n ri).log.length := by
  intro n
  induction n with
  | zero =>
    intro ri
    by_cases h200 : (env.server ri).status = 200
    · rw [uploadLoop_200 env sb chunk 0 ri h200]; simp
    by_cases h308 : (env.server ri).status = 308
    · rw [uploadLoop_308 env sb chunk 0 ri h308]; simp
    · rw [uploadLoop_fail_zero env sb chunk ri h200 h308]; simp
  | succ n ih =>
    intro ri
    by_cases h200 : (env.server ri).status = 200
    · rw [uploadLoop_200 env sb chunk (n + 1) ri h200]; simp
    by_cases h308 : (env.server ri).status = 308
    · rw [uploadLoop_308 env sb chunk (n + 1) ri h308]; simp
    · rw [uploadLoop_fail_succ env sb chunk n ri h200 h308]
      simp only [List.length_cons]
      rw [ih (ri + 1)]
      omega

theorem uploadLoop_trace (env : Env α) (sb : Nat) (chunk : List Byte) :
    ∀ n ri, ReqTrace sb (uploadLoop env sb chunk n ri).log
      (uploadLoop env sb chunk n ri).startByte := by
  intro n
  induction n with
  | zero =>
    intro ri
    by_cases h200 : (env.server ri).status = 200
    · rw [uploadLoop_200 env sb chunk 0 ri h200]
      exact ReqTrace.stay _ _ _ _ rfl (ReqTrace.nil sb)
    by_cases h308 : (env.server ri).status = 308
    · rw [uploadLoop_308 env sb chunk 0 ri h308]
      exact ReqTrace.adv _ _ _ _ rfl (ReqTrace.nil _)
    · rw [uploadLoop_fail_zero env sb chunk ri h200 h308]
      exact ReqTrace.stay _ _ _ _ rfl (ReqTrace.nil sb)
  | succ n ih =>
    intro ri
    by_cases h200 : (env.server ri).status = 200
    · rw [uploadLoop_200 env sb chunk (n + 1) ri h200]
      exact ReqTrace.stay _ _ _ _ rfl (ReqTrace.nil sb)
    by_cases h308 : (env.server ri).status = 308
    · rw [uploadLoop_308 env sb chunk (n + 1) ri h308]
      exact ReqTrace.adv _ _ _ _ rfl (ReqTrace.nil _)
    · rw [uploadLoop_fail_succ env sb chunk n ri h200 h308]
      exact ReqTrace.stay _ _ _ _ rfl (ih (ri + 1))

theorem uploadLoop_stop200 (env : Env α) (sb : Nat) (chunk : List Byte) :
    ∀ n ri i, ri ≤ i → i < ri + (uploadLoop env sb chunk n ri).log.length →
      (env.server i).status = 200 →
      i + 1 = ri + (uploadLoop env sb chunk n ri).log.length ∧
      (uploadLoop env sb chunk n ri).out =
        AttemptOut.resolved (parseOrRaw env.parse (env.server i).body) := by
  intro n
  induction n with
  | zero =>
    intro ri i hle hlt hi
    by_cases h200 : (env.server ri).status = 200
    · rw [uploadLoop_200 env sb chunk 0 ri h200] at hlt ⊢
      simp only [List.length_cons, List.length_nil] at hlt ⊢
      have : i = ri := by omega
      subst this
      exact ⟨by omega, rfl⟩
    by_cases h308 : (env.server ri).status = 308
    · rw [uploadLoop_308 env sb chunk 0 ri h308] at hlt
      simp only [List.length_cons, List.length_nil] at hlt
      have : i = ri := by omega
      subst this
      exact absurd hi h200
    · rw [uploadLoop_fail_zero env sb chunk ri h200 h308] at hlt
      simp only [List.length_cons, List.length_nil] at hlt
      have : i = ri := by omega
      subst this
      exact absurd hi h200
  | succ n ih =>
    intro ri i hle hlt hi
    by_cases h200 : (env.server ri).status = 200
    · rw [uploadLoop_200 env sb chunk (n + 1) ri h200] at hlt ⊢
      simp only [List.length_cons, List.length_nil] at hlt ⊢
      have : i = ri := by omega
      subst this
      exact ⟨by omega, rfl⟩
    by_cases h308 : (env.server ri).status = 308
    · rw [uploadLoop_308 env sb chunk (n + 1) ri h308] at hlt
      simp only [List.length_cons, List.length_nil] at hlt
      have : i = ri := by omega
      subst this
      exact absurd hi h200
    · rw [uploadLoop_fail_succ env sb chunk n ri h200 h308] at hlt ⊢
      simp only [List.length_cons] at hlt ⊢
      rcases Nat.eq_or_lt_of_le hle with heq | hlt'
      · subst heq
        exact absurd hi h200
      · have h1 : ri + 1 ≤ i := hlt'
        have h2 : i < (ri + 1) + (uploadLoop env sb chunk n (ri + 1)).log.length := by
          omega
        rcases ih (ri + 1) i h1 h2 hi with ⟨ha, hb⟩
        exact ⟨by omega, hb⟩

/-! ### Facts about `ReqTrace` -/

theorem ReqTrace.append {a b c : Nat} {l1 l2 : List PutRequest}
    (h1 : ReqTrace a l1 b) (h2 : ReqTrace b l2 c) : ReqTrace a (l1 ++ l2) c := by
  induction h1 with
  | nil => simpa using h2
  | stay sb sbEnd r log hr _ ih => exact ReqTrace.stay _ _ _ _ hr (ih h2)
  | adv sb sbEnd r log hr _ ih => exact ReqTrace.adv _ _ _ _ hr (ih h2)

theorem ReqTrace.head_rangeStart {a b : Nat} {l : List PutRequest}
    (h : ReqTrace a l b) : ∀ r, l.head? = some r → r.rangeStart = (a : Int) := by
  cases h with
  | nil => intro r hr; simp at hr
  | stay sb sbEnd r log hr _ =>
    intro r' hr'
    simp only [List.head?_cons, Option.some.injEq] at hr'
    exact hr' ▸ hr
  | adv sb sbEnd r log hr _ =>
    intro r' hr'
    simp only [List.head?_cons, Option.some.injEq] at hr'
    exact hr' ▸ hr

theorem ReqTrace.mem_le {a b : Nat} {l : List PutRequest}
    (h : ReqTrace a l b) : ∀ r ∈ l, (a : Int) ≤ r.rangeStart := by
  induction h with
  | nil => intro r hr; simp at hr
  | stay sb sbEnd r log hr _ ih =>
    intro r' hr'
    rcases List.mem_cons.1 hr' with rfl | hmem
    · omega
    · exact ih r' hmem
  | adv sb sbEnd r log hr _ ih =>
    intro r' hr'
    rcases List.mem_cons.1 hr' with rfl | hmem
    · omega
    · have := ih r' hmem
      omega

theorem ReqTrace.chain_le {a b : Nat} {l : List PutRequest}
    (h : ReqTrace a l b) :
    List.Chain' (fun r1 r2 => r1.rangeStart ≤ r2.rangeStart) l := by
  induction h with
  | nil => exact List.chain'_nil
  | stay sb sbEnd r log hr htail ih =>
    refine List.chain'_cons'.2 ⟨?_, ih⟩
    intro r' hr'
    have := htail.head_rangeStart r' hr'
    omega
  | adv sb sbEnd r log hr htail ih =>
    refine List.chain'_cons'.2 ⟨?_, ih⟩
    intro r' hr'
    have := htail.head_rangeStart r' hr'
    omega

/-! ### Facts about `dataPhase` -/

theorem dataPhase_reqIndex (env : Env α) (C : Nat) :
    ∀ frags (buf : List Byte) (sb ri : Nat),
      (dataPhase env C frags buf sb ri).reqIndex =
        ri + (dataPhase env C frags buf sb ri).log.length := by
  intro frags
  induction frags with
  | nil => intro buf sb ri; simp [dataPhase]
  | cons f fs ih =>
    intro buf sb ri
    by_cases hsl : C ≤ (buf ++ f).length
    · simp only [dataPhase]
      rw [if_pos hsl]
      rcases ho : (uploadLoop env sb ((buf ++ f).take C) 3 ri).out with v | _ | ⟨s, b⟩
      · simp only [ho]
        exact uploadLoop_reqIndex env sb ((buf ++ f).take C) 3 ri
      · simp only [ho, List.length_append]
        rw [ih]
        rw [uploadLoop_reqIndex env sb ((buf ++ f).take C) 3 ri]
        omega
      · simp only [ho]
        exact uploadLoop_reqIndex env sb ((buf ++ f).take C) 3 ri
    · simp only [dataPhase]
      rw [if_neg hsl]
      exact ih _ _ _

@[simp] theorem mkPut_url (l : String) (s : Nat) (c : List Byte) (D : Int) :
    (mkPut l s c D).url = l := rfl

@[simp] theorem mkPut_body (l : String) (s : Nat) (c : List Byte) (D : Int) :
    (mkPut l s c D).body = c := rfl

@[simp] theorem mkPut_rangeStart (l : String) (s : Nat) (c : List Byte) (D : Int) :
    (mkPut l s c D).rangeStart = (s : Int) := rfl

@[simp] theorem mkPut_rangeEnd (l : String) (s : Nat) (c : List Byte) (D : Int) :
    (mkPut l s c D).rangeEnd = (s : Int) + (c.length : Int) - 1 := rfl

@[simp] theorem mkPut_rangeTotal (l : String) (s : Nat) (c : List Byte) (D : Int) :
    (mkPut l s c D).rangeTotal = D := rfl

theorem mkPut_contentRange (l : String) (s : Nat) (c : List Byte) (D : Int) :
    (mkPut l s c D).contentRange = "bytes " ++ toString (s : Int) ++ "-"
      ++ toString ((s : Int) + (c.length : Int) - 1) ++ "/" ++ toString D := rfl

theorem uploadLoop_mem (env : Env α) (sb : Nat) (chunk : List Byte) (n ri : Nat) :
    ∀ r ∈ (uploadLoop env sb chunk n ri).log,
      r = mkPut env.location sb chunk env.dataSize := by
  intro r hr
  rw [uploadLoop_log_replicate env sb chunk n ri] at hr
  exact List.eq_of_mem_replicate hr

theorem dataPhase_trace (env : Env α) (C : Nat) :
    ∀ frags (buf : List Byte) (sb ri : Nat),
      ReqTrace sb (dataPhase env C frags buf sb ri).log
        (dataPhase env C frags buf sb ri).startByte := by
  intro frags
  induction frags with
  | nil => intro buf sb ri; exact ReqTrace.nil sb
  | cons f fs ih =>
    intro buf sb ri
    by_cases hsl : C ≤ (buf ++ f).length
    · simp only [dataPhase]
      rw [if_pos hsl]
      rcases ho : (uploadLoop env sb ((buf ++ f).take C) 3 ri).out with v | _ | ⟨s, b⟩
      · simp only [ho]
        exact uploadLoop_trace env sb ((buf ++ f).take C) 3 ri
      · simp only [ho]
        exact ReqTrace.append (uploadLoop_trace env sb ((buf ++ f).take C) 3 ri) (ih _ _ _)
      · simp only [ho]
        exact uploadLoop_trace env sb ((buf ++ f).take C) 3 ri
    · simp only [dataPhase]
      rw [if_neg hsl]
      exact ih _ _ _

theorem dataPhase_mem (env : Env α) (C : Nat) :
    ∀ frags (buf : List Byte) (sb ri : Nat),
      ∀ r ∈ (dataPhase env C frags buf sb ri).log,
        ∃ s c, r = mkPut env.location s c env.dataSize := by
  intro frags
  induction frags with
  | nil => intro buf sb ri r hr; simp [dataPhase] at hr
  | cons f fs ih =>
    intro buf sb ri
    by_cases hsl : C ≤ (buf ++ f).length
    · simp only [dataPhase]
      rw [if_pos hsl]
      rcases ho : (uploadLoop env sb ((buf ++ f).take C) 3 ri).out with v | _ | ⟨s, b⟩
      · simp only [ho]
        intro r hr
        exact ⟨sb, (buf ++ f).take C, uploadLoop_mem env sb ((buf ++ f).take C) 3 ri r hr⟩
      · simp only [ho]
        intro r hr
        rcases List.mem_append.1 hr with hr1 | hr2
        · exact ⟨sb, (buf ++ f).take C, uploadLoop_mem env sb ((buf ++ f).take C) 3 ri r hr1⟩
        · exact ih _ _ _ r hr2
      · simp only [ho]
        intro r hr
        exact ⟨sb, (buf ++ f).take C, uploadLoop_mem env sb ((buf ++ f).take C) 3 ri r hr⟩
    · simp only [dataPhase]
      rw [if_neg hsl]
      exact ih _ _ _

theorem dataPhase_stop200 (env : Env α) (C : Nat) :
    ∀ frags (buf : List Byte) (sb ri i : Nat), ri ≤ i →
      i < ri + (dataPhase env C frags buf sb ri).log.length →
      (env.server i).status = 200 →
      i + 1 = ri + (dataPhase env C frags buf sb ri).log.length ∧
      (dataPhase env C frags buf sb ri).terminal =
        some (RunResult.resolved (parseOrRaw env.parse (env.server i).body)) := by
  intro frags
  induction frags with
  | nil =>
    intro buf sb ri i hle hlt hi
    simp only [dataPhase, List.length_nil] at hlt
    omega
  | cons f fs ih =>
    intro buf sb ri i hle hlt hi
    by_cases hsl : C ≤ (buf ++ f).length
    · simp only [dataPhase, if_pos hsl] at hlt ⊢
      rcases ho : (uploadLoop env sb ((buf ++ f).take C) 3 ri).out with v | _ | ⟨s, b⟩
      · simp only [ho] at hlt ⊢
        rcases uploadLoop_stop200 env sb ((buf ++ f).take C) 3 ri i hle hlt hi with ⟨ha, hb⟩
        rw [ho] at hb
        injection hb with hb
        exact ⟨ha, by rw [hb]⟩
      · simp only [ho, List.length_append] at hlt ⊢
        rw [uploadLoop_reqIndex env sb ((buf ++ f).take C) 3 ri] at hlt ⊢
        by_cases hin : i < ri + (uploadLoop env sb ((buf ++ f).take C) 3 ri).log.length
        · rcases uploadLoop_stop200 env sb ((buf ++ f).take C) 3 ri i hle hin hi with ⟨_, hb⟩
          rw [ho] at hb
          exact absurd hb (by simp)
        · have h1 : ri + (uploadLoop env sb ((buf ++ f).take C) 3 ri).log.length ≤ i := by
            omega
          rcases ih ((buf ++ f).drop C)
            (uploadLoop env sb ((buf ++ f).take C) 3 ri).startByte
            (ri + (uploadLoop env sb ((buf ++ f).take C) 3 ri).log.length) i h1
            (by omega) hi with ⟨ha, hb⟩
          exact ⟨by omega, hb⟩
      · simp only [ho] at hlt ⊢
        rcases uploadLoop_stop200 env sb ((buf ++ f).take C) 3 ri i hle hlt hi with ⟨_, hb⟩
        rw [ho] at hb
        exact absurd hb (by simp)
    · simp only [dataPhase, if_neg hsl] at hlt ⊢
      exact ih _ _ _ i hle hlt hi

theorem dataPhase_flatten (env : Env α) (C : Nat)
    (h : ∀ i, (env.server i).status = 308) :
    ∀ frags (buf : List Byte) (sb ri : Nat),
      (dataPhase env C frags buf sb ri).terminal = none ∧
      ((dataPhase env C frags buf sb ri).log.map PutRequest.body).flatten
          ++ (dataPhase env C frags buf sb ri).buffer = buf ++ frags.flatten := by
  intro frags
  induction frags with
  | nil => intro buf sb ri; simp [dataPhase]
  | cons f fs ih =>
    intro buf sb ri
    by_cases hsl : C ≤ (buf ++ f).length
    · simp only [dataPhase, if_pos hsl, uploadLoop_308 env sb ((buf ++ f).take C) 3 ri (h ri)]
      rcases ih ((buf ++ f).drop C) (sb + ((buf ++ f).take C).length) (ri + 1) with ⟨ht, hj⟩
      refine ⟨ht, ?_⟩
      simp only [List.map_append, List.map_cons, List.map_nil, List.flatten_append,
        List.flatten_cons, List.flatten_nil, mkPut_body, List.append_nil, List.append_assoc]
      rw [hj, ← List.append_assoc, List.take_append_drop, List.append_assoc]
    · simp only [dataPhase, if_neg hsl]
      rcases ih (buf ++ f) sb ri with ⟨ht, hj⟩
      refine ⟨ht, ?_⟩
      rw [hj, List.flatten_cons, List.append_assoc]

theorem dataPhase_lens (env : Env α) (C : Nat)
    (h : ∀ i, (env.server i).status = 308) :
    ∀ frags (buf : List Byte) (sb ri : Nat), (∀ f ∈ frags, f.length ≤ C) →
      buf.length < C →
      (∃ k, (dataPhase env C frags buf sb ri).log.map (fun r => r.body.length) =
        List.replicate k C) ∧
      (dataPhase env C frags buf sb ri).buffer.length < C := by
  intro frags
  induction frags with
  | nil =>
    intro buf sb ri _ hbuf
    exact ⟨⟨0, by simp [dataPhase]⟩, by simpa [dataPhase] using hbuf⟩
  | cons f fs ih =>
    intro buf sb ri hf hbuf
    have hfC : f.length ≤ C := hf f (List.mem_cons_self f fs)
    have hfs : ∀ g ∈ fs, g.length ≤ C := fun g hg => hf g (List.mem_cons_of_mem f hg)
    by_cases hsl : C ≤ (buf ++ f).length
    · simp only [dataPhase, if_pos hsl, uploadLoop_308 env sb ((buf ++ f).take C) 3 ri (h ri)]
      have hleft : ((buf ++ f).drop C).length < C := by
        rw [List.length_drop]
        rw [List.length_append] at hsl ⊢
        omega
      rcases ih ((buf ++ f).drop C) (sb + ((buf ++ f).take C).length) (ri + 1) hfs hleft
        with ⟨⟨k, hk⟩, hb⟩
      refine ⟨⟨k + 1, ?_⟩, hb⟩
      simp only [List.map_append, List.map_cons, List.map_nil, mkPut_body]
      rw [hk]
      have htake : ((buf ++ f).take C).length = C := by
        rw [List.length_take]
        omega
      rw [htake, List.replicate_succ]
      rfl
    · simp only [dataPhase, if_neg hsl]
      exact ih (buf ++ f) sb ri hfs (by omega)

/-! ### Facts about `endPhase` -/

theorem endPhase_reqIndex (env : Env α) (buffer : List Byte) (sb ri : Nat) :
    (endPhase env buffer sb ri).reqIndex = ri + (endPhase env buffer sb ri).log.length := by
  by_cases hb : 0 < buffer.length
  · simp only [endPhase, if_pos hb]
    rcases ho : (uploadLoop env sb buffer 3 ri).out with v | _ | ⟨s, b⟩
    · simp only [ho]
      exact uploadLoop_reqIndex env sb buffer 3 ri
    · simp only [ho]
      exact uploadLoop_reqIndex env sb buffer 3 ri
    · simp only [ho]
      exact uploadLoop_reqIndex env sb buffer 3 ri
  · simp only [endPhase, if_neg hb]
    simp

theorem endPhase_trace (env : Env α) (buffer : List Byte) (sb ri : Nat) :
    ReqTrace sb (endPhase env buffer sb ri).log (endPhase env buffer sb ri).startByte := by
  by_cases hb : 0 < buffer.length
  · simp only [endPhase, if_pos hb]
    rcases ho : (uploadLoop env sb buffer 3 ri).out with v | _ | ⟨s, b⟩
    · simp only [ho]
      exact uploadLoop_trace env sb buffer 3 ri
    · simp only [ho]
      exact uploadLoop_trace env sb buffer 3 ri
    · simp only [ho]
      exact uploadLoop_trace env sb buffer 3 ri
  · simp only [endPhase, if_neg hb]
    exact ReqTrace.nil sb

theorem endPhase_mem (env : Env α) (buffer : List Byte) (sb ri : Nat) :
    ∀ r ∈ (endPhase env buffer sb ri).log,
      ∃ s c, r = mkPut env.location s c env.dataSize := by
  by_cases hb : 0 < buffer.length
  · simp only [endPhase, if_pos hb]
    rcases ho : (uploadLoop env sb buffer 3 ri).out with v | _ | ⟨s, b⟩
    · simp only [ho]
      intro r hr
      exact ⟨sb, buffer, uploadLoop_mem env sb buffer 3 ri r hr⟩
    · simp only [ho]
      intro r hr
      exact ⟨sb, buffer, uploadLoop_mem env sb buffer 3 ri r hr⟩
    · simp only [ho]
      intro r hr
      exact ⟨sb, buffer, uploadLoop_mem env sb buffer 3 ri r hr⟩
  · simp only [endPhase, if_neg hb]
    intro r hr
    simp at hr

theorem endPhase_stop200 (env : Env α) (buffer : List Byte) (sb ri i : Nat)
    (hle : ri ≤ i) (hlt : i < ri + (endPhase env buffer sb ri).log.length)
    (hi : (env.server i).status = 200) :
    i + 1 = ri + (endPhase env buffer sb ri).log.length ∧
    (endPhase env buffer sb ri).result =
      RunResult.resolved (parseOrRaw env.parse (env.server i).body) := by
  by_cases hb : 0 < buffer.length
  · simp only [endPhase, if_pos hb] at hlt ⊢
    rcases ho : (uploadLoop env sb buffer 3 ri).out with v | _ | ⟨s, b⟩
    · simp only [ho] at hlt ⊢
      rcases uploadLoop_stop200 env sb buffer 3 ri i hle hlt hi with ⟨ha, hres⟩
      rw [ho] at hres
      injection hres with hres
      exact ⟨ha, by rw [hres]⟩
    · simp only [ho] at hlt ⊢
      rcases uploadLoop_stop200 env sb buffer 3 ri i hle hlt hi with ⟨_, hres⟩
      rw [ho] at hres
      exact absurd hres (by simp)
    · simp only [ho] at hlt ⊢
      rcases uploadLoop_stop200 env sb buffer 3 ri i hle hlt hi with ⟨_, hres⟩
      rw [ho] at hres
      exact absurd hres (by simp)
  · simp only [endPhase, if_neg hb, List.length_nil] at hlt
    omega

/-! ### Facts about `runUpload` -/

theorem runUpload_reqIndex (env : Env α) (C : Nat) (frags : List (List Byte)) :
    (runUpload env C frags).reqIndex = (runUpload env C frags).log.length := by
  rcases hterm : (dataPhase env C frags [] 0 0).terminal with _ | r
  · simp only [runUpload, runUploadAux, hterm]
    rw [endPhase_reqIndex, dataPhase_reqIndex env C frags [] 0 0, List.length_append]
    omega
  · simp only [runUpload, runUploadAux, hterm]
    rw [dataPhase_reqIndex env C frags [] 0 0]
    omega

theorem runUpload_trace (env : Env α) (C : Nat) (frags : List (List Byte)) :
    ReqTrace 0 (runUpload env C frags).log (runUpload env C frags).startByte := by
  rcases hterm : (dataPhase env C frags [] 0 0).terminal with _ | r
  · simp only [runUpload, runUploadAux, hterm]
    exact ReqTrace.append (dataPhase_trace env C frags [] 0 0)
      (endPhase_trace env _ _ _)
  · simp only [runUpload, runUploadAux, hterm]
    exact dataPhase_trace env C frags [] 0 0

theorem runUpload_mem (env : Env α) (C : Nat) (frags : List (List Byte)) :
    ∀ r ∈ (runUpload env C frags).log,
      ∃ s c, r = mkPut env.location s c env.dataSize := by
  rcases hterm : (dataPhase env C frags [] 0 0).terminal with _ | r
  · simp only [runUpload, runUploadAux, hterm]
    intro r hr
    rcases List.mem_append.1 hr with hr1 | hr2
    · exact dataPhase_mem env C frags [] 0 0 r hr1
    · exact endPhase_mem env _ _ _ r hr2
  · simp only [runUpload, runUploadAux, hterm]
    exact dataPhase_mem env C frags [] 0 0

theorem runUpload_stop200 (env : Env α) (C : Nat) (frags : List (List Byte)) (i : Nat)
    (hi : (env.server i).status = 200) (hlt : i < (runUpload env C frags).log.length) :
    (runUpload env C frags).log.length = i + 1 ∧
    (runUpload env C frags).result =
      RunResult.resolved (parseOrRaw env.parse (env.server i).body) := by
  rcases hterm : (dataPhase env C frags [] 0 0).terminal with _ | r
  · simp only [runUpload, runUploadAux, hterm] at hlt ⊢
    rw [List.length_append] at hlt ⊢
    by_cases hin : i < (dataPhase env C frags [] 0 0).log.length
    · rcases dataPhase_stop200 env C frags [] 0 0 i (Nat.zero_le i) (by omega) hi
        with ⟨_, hterm2⟩
      rw [hterm] at hterm2
      simp at hterm2
    · have h1 : (dataPhase env C frags [] 0 0).log.length ≤ i := by omega
      have hri : (dataPhase env C frags [] 0 0).reqIndex =
          0 + (dataPhase env C frags [] 0 0).log.length :=
        dataPhase_reqIndex env C frags [] 0 0
      rcases endPhase_stop200 env (dataPhase env C frags [] 0 0).buffer
        (dataPhase env C frags [] 0 0).startByte (dataPhase env C frags [] 0 0).reqIndex i
        (by omega) (by omega) hi with ⟨ha, hb⟩
      exact ⟨by omega, hb⟩
  · simp only [runUpload, runUploadAux, hterm] at hlt ⊢
    rcases dataPhase_stop200 env C frags [] 0 0 i (Nat.zero_le i) (by omega) hi
      with ⟨ha, hterm2⟩
    rw [hterm] at hterm2
    injection hterm2 with hterm2
    exact ⟨by omega, by rw [hterm2]⟩

theorem runUpload_flatten (env : Env α) (C : Nat) (frags : List (List Byte))
    (h : ∀ i, (env.server i).status = 308) :
    ((runUpload env C frags).log.map PutRequest.body).flatten = frags.flatten := by
  rcases dataPhase_flatten env C h frags [] 0 0 with ⟨hterm, hj⟩
  simp only [runUpload, runUploadAux, hterm]
  by_cases hb : 0 < (dataPhase env C frags [] 0 0).buffer.length
  · simp only [endPhase, if_pos hb,
      uploadLoop_308 env (dataPhase env C frags [] 0 0).startByte
        (dataPhase env C frags [] 0 0).buffer 3 (dataPhase env C frags [] 0 0).reqIndex
        (h (dataPhase env C frags [] 0 0).reqIndex)]
    simp only [List.map_append, List.map_cons, List.map_nil, List.flatten_append,
      List.flatten_cons, List.flatten_nil, mkPut_body, List.append_nil]
    simpa using hj
  · have hbe : (dataPhase env C frags [] 0 0).buffer = [] := by
      rcases Nat.eq_zero_or_pos (dataPhase env C frags [] 0 0).buffer.length with h0 | h0
      · exact List.length_eq_zero.1 h0
      · exact absurd h0 hb
    simp only [endPhase, if_neg hb]
    rw [hbe, List.append_nil] at hj
    simpa using hj

theorem runUpload_hung (env : Env α) (C : Nat) (frags : List (List Byte))
    (h : ∀ i, (env.server i).status = 308) :
    (runUpload env C frags).result = RunResult.hung := by
  rcases dataPhase_flatten env C h frags [] 0 0 with ⟨hterm, _⟩
  simp only [runUpload, runUploadAux, hterm]
  by_cases hb : 0 < (dataPhase env C frags [] 0 0).buffer.length
  · simp only [endPhase, if_pos hb,
      uploadLoop_308 env (dataPhase env C frags [] 0 0).startByte
        (dataPhase env C frags [] 0 0).buffer 3 (dataPhase env C frags [] 0 0).reqIndex
        (h (dataPhase env C frags [] 0 0).reqIndex)]
  · simp only [endPhase, if_neg hb]

/-! ### Claim theorems -/

/-- C1: when the server accepts every chunk (a 308 response to every PUT,
so no chunk is retried and the run never terminates early), the ordered
concatenation of the bodies of all chunk PUT requests issued by the upload
stage equals the concatenation of the source fragments exactly — no gaps,
no reordering, no duplication.  This holds for every fragment sequence and
every chunk size. -/
theorem c1_put_bodies_concat (env : Env α) (chunkSize : Nat) (frags : List (List Byte))
    (h : ∀ i, (env.server i).status = 308) :
    ((runUpload env chunkSize frags).log.map PutRequest.body).flatten = frags.flatten :=
  runUpload_flatten env chunkSize frags h

theorem c1_put_bodies_concat_witness :
    (∀ i, ((constEnv 308 "" 3).server i).status = 308) ∧
    ((runUpload (constEnv 308 "" 3) 2 [[1, 2], [3]]).log.map PutRequest.body).flatten
      = ([[1, 2], [3]] : List (List Byte)).flatten :=
  ⟨fun _ => rfl, c1_put_bodies_concat (constEnv 308 "" 3) 2 [[1, 2], [3]] (fun _ => rfl)⟩

/-- Every attempt of the per-chunk retry loop failing (status neither 200
nor 308) makes the loop reject after exactly `n + 1` attempts with the
last response's status and body. -/
theorem uploadLoop_all_fail (env : Env α) (sb : Nat) (chunk : List Byte) :
    ∀ n ri,
      (∀ k, k ≤ n → (env.server (ri + k)).status ≠ 200 ∧ (env.server (ri + k)).status ≠ 308) →
      uploadLoop env sb chunk n ri =
        { out := AttemptOut.rejected (env.server (ri + n)).status (env.server (ri + n)).body
          log := List.replicate (n + 1) (mkPut env.location sb chunk env.dataSize)
          reqIndex := ri + n + 1
          startByte := sb } := by
  intro n
  induction n with
  | zero =>
    intro ri h
    have h0 := h 0 (Nat.le_refl 0)
    rw [Nat.add_zero] at h0
    exact uploadLoop_fail_zero env sb chunk ri h0.1 h0.2
  | succ n ih =>
    intro ri h
    have h0 := h 0 (Nat.zero_le _)
    rw [Nat.add_zero] at h0
    rw [uploadLoop_fail_succ env sb chunk n ri h0.1 h0.2]
    rw [ih (ri + 1) (fun k hk => by
      have hx := h (k + 1) (by omega)
      rwa [show ri + (k + 1) = ri + 1 + k by omega] at hx)]
    simp only [List.replicate_succ]
    rw [show ri + 1 + n = ri + (n + 1) by omega]

/-- C2: if the server answers with a status that is neither 200 nor 308 on
every attempt for a chunk (here: on the first four), the chunk upload makes
exactly 4 PUT attempts (the initial attempt plus 3 retries) and then
rejects with the status and body of the last (4th) attempt; no further
attempt is made — the log holds exactly 4 requests and the request index
advances by exactly 4. -/
theorem c2_retry_exhaustion (env : Env α) (sb : Nat) (chunk : List Byte) (ri : Nat)
    (h : ∀ k, k < 4 →
      (env.server (ri + k)).status ≠ 200 ∧ (env.server (ri + k)).status ≠ 308) :
    uploadLoop env sb chunk 3 ri =
      { out := AttemptOut.rejected (env.server (ri + 3)).status (env.server (ri + 3)).body
        log := List.replicate 4 (mkPut env.location sb chunk env.dataSize)
        reqIndex := ri + 4
        startByte := sb } :=
  uploadLoop_all_fail env sb chunk 3 ri (fun k hk => h k (by omega))

theorem c2_retry_exhaustion_witness :
    (∀ k, k < 4 → ((constEnv 500 "err" 3).server (0 + k)).status ≠ 200 ∧
      ((constEnv 500 "err" 3).server (0 + k)).status ≠ 308) ∧
    uploadLoop (constEnv 500 "err" 3) 0 [7] 3 0 =
      { out := AttemptOut.rejected 500 "err"
        log := List.replicate 4 (mkPut "https://upload.example/session" 0 [7] 3)
        reqIndex := 4
        startByte := 0 } :=
  ⟨fun _ _ => ⟨(by decide : (500 : Nat) ≠ 200), (by decide : (500 : Nat) ≠ 308)⟩,
   c2_retry_exhaustion (constEnv 500 "err" 3) 0 [7] 0
     (fun _ _ => ⟨(by decide : (500 : Nat) ≠ 200), (by decide : (500 : Nat) ≠ 308)⟩)⟩

/-- C3 counterexample: chunk size 2, a single 5-byte source fragment,
every chunk acknowledged with 308.  The data handler slices exactly one
2-byte chunk per data event and leaves a 3-byte remainder, which the end
handler uploads whole, so the PUT body lengths are [2, 3]: the final
chunk's length 3 is not `D mod C = 5 mod 2 = 1`, refuting the claim for
sources that deliver a fragment larger than the chunk size. -/
theorem c3_counterexample :
    ((runUpload (constEnv 308 "" 5) 2 [[1, 2, 3, 4, 5]]).log.map
      (fun r => r.body.length)) = [2, 3] ∧ (5 : Nat) % 2 = 1 ∧ (3 : Nat) ≠ 1 :=
  ⟨by decide, by decide, by decide⟩

/-- C3 (amended): under the additional premise that every fragment
delivered by the byte source is at most `chunkSize` bytes long (with the
internal buffer then always shorter than `chunkSize` between events), and
with every chunk acknowledged by 308 so that all chunks are actually PUT:
every chunk PUT except the last carries exactly `C` bytes, the final
chunk's body has length `D mod C` (or `C` when `D mod C = 0`), and no
chunk, including the final one, is ever empty. -/
theorem c3_chunk_lengths (env : Env α) (C : Nat) (frags : List (List Byte))
    (h308 : ∀ i, (env.server i).status = 308) (hC : 0 < C)
    (hf : ∀ f ∈ frags, f.length ≤ C) (hD : 0 < frags.flatten.length) :
    (∃ k, (runUpload env C frags).log.map (fun r => r.body.length) =
      List.replicate k C ++
        [if frags.flatten.length % C = 0 then C else frags.flatten.length % C]) ∧
    ∀ r ∈ (runUpload env C frags).log, 0 < r.body.length := by
  rcases dataPhase_flatten env C h308 frags [] 0 0 with ⟨hterm, hj⟩
  rw [List.nil_append] at hj
  rcases dataPhase_lens env C h308 frags [] 0 0 hf (by simpa using hC) with ⟨⟨k, hk⟩, hbuf⟩
  have hlen : ((dataPhase env C frags [] 0 0).log.map PutRequest.body).flatten.length
      + (dataPhase env C frags [] 0 0).buffer.length = frags.flatten.length := by
    have := congrArg List.length hj
    simpa using this
  have hsum : ((dataPhase env C frags [] 0 0).log.map PutRequest.body).flatten.length
      = k * C := by
    rw [List.length_flatten]
    have hmm : (((dataPhase env C frags [] 0 0).log.map PutRequest.body).map List.length)
        = (dataPhase env C frags [] 0 0).log.map (fun r => r.body.length) := by
      rw [List.map_map]
      rfl
    rw [hmm, hk]
    simp [List.sum_replicate, smul_eq_mul]
  simp only [runUpload, runUploadAux, hterm]
  by_cases hb : 0 < (dataPhase env C frags [] 0 0).buffer.length
  · simp only [endPhase, if_pos hb,
      uploadLoop_308 env (dataPhase env C frags [] 0 0).startByte
        (dataPhase env C frags [] 0 0).buffer 3 (dataPhase env C frags [] 0 0).reqIndex
        (h308 (dataPhase env C frags [] 0 0).reqIndex)]
    have hmod : frags.flatten.length % C = (dataPhase env C frags [] 0 0).buffer.length := by
      have hDeq : frags.flatten.length =
          (dataPhase env C frags [] 0 0).buffer.length + k * C := by omega
      rw [hDeq, Nat.add_mul_mod_self_right, Nat.mod_eq_of_lt hbuf]
    constructor
    · refine ⟨k, ?_⟩
      rw [List.map_append, hk]
      simp only [List.map_cons, List.map_nil, mkPut_body]
      rw [hmod, if_neg (by omega)]
    · intro r hr
      rcases List.mem_append.1 hr with hr1 | hr2
      · have hmem : r.body.length ∈
            (dataPhase env C frags [] 0 0).log.map (fun r => r.body.length) :=
          List.mem_map_of_mem _ hr1
        rw [hk] at hmem
        have := List.eq_of_mem_replicate hmem
        omega
      · have hreq : r = mkPut env.location (dataPhase env C frags [] 0 0).startByte
            (dataPhase env C frags [] 0 0).buffer env.dataSize := by
          simpa using hr2
        rw [hreq]
        simpa using hb
  · have hblen : (dataPhase env C frags [] 0 0).buffer.length = 0 := by omega
    simp only [endPhase, if_neg hb]
    have hkpos : 0 < k := by
      rcases Nat.eq_zero_or_pos k with h0 | h0
      · subst h0
        omega
      · exact h0
    have hmod : frags.flatten.length % C = 0 := by
      have hDeq : frags.flatten.length = k * C := by omega
      rw [hDeq, Nat.mul_mod_left]
    constructor
    · refine ⟨k - 1, ?_⟩
      rw [List.append_nil, hk, hmod, if_pos rfl]
      conv_lhs => rw [show k = (k - 1) + 1 by omega]
      rw [List.replicate_succ']
    · intro r hr
      rw [List.append_nil] at hr
      have hmem : r.body.length ∈
          (dataPhase env C frags [] 0 0).log.map (fun r => r.body.length) :=
        List.mem_map_of_mem _ hr
      rw [hk] at hmem
      have := List.eq_of_mem_replicate hmem
      omega

theorem c3_chunk_lengths_witness :
    (∀ i, ((constEnv 308 "" 3).server i).status = 308) ∧ (0 : Nat) < 2 ∧
    (∀ f ∈ ([[1, 2], [3]] : List (List Byte)), f.length ≤ 2) ∧
    0 < ([[1, 2], [3]] : List (List Byte)).flatten.length ∧
    ((∃ k, (runUpload (constEnv 308 "" 3) 2 [[1, 2], [3]]).log.map (fun r => r.body.length) =
      List.replicate k 2 ++
        [if ([[1, 2], [3]] : List (List Byte)).flatten.length % 2 = 0 then 2
         else ([[1, 2], [3]] : List (List Byte)).flatten.length % 2]) ∧
    ∀ r ∈ (runUpload (constEnv 308 "" 3) 2 [[1, 2], [3]]).log, 0 < r.body.length) :=
  ⟨fun _ => rfl, by decide, by decide, by decide,
   c3_chunk_lengths (constEnv 308 "" 3) 2 [[1, 2], [3]] (fun _ => rfl) (by decide)
     (by decide) (by decide)⟩

/-- C4: a 308 response to a chunk PUT makes the upload step advance the
confirmed offset `startByte` by exactly the length of the chunk just sent,
with exactly one PUT issued and a non-terminal outcome (`advanced` — the
promise is neither resolved nor rejected); and over any whole run, under
any server behaviour, the `rangeStart` offsets of the issued PUTs start at
0 and are monotonically non-decreasing. -/
theorem c4_advance_on_308 (env : Env α) (C : Nat) (frags : List (List Byte))
    (sb : Nat) (chunk : List Byte) (n ri : Nat)
    (h : (env.server ri).status = 308) :
    uploadLoop env sb chunk n ri =
      { out := AttemptOut.advanced
        log := [mkPut env.location sb chunk env.dataSize]
        reqIndex := ri + 1
        startByte := sb + chunk.length } ∧
    List.Chain' (fun r1 r2 => r1.rangeStart ≤ r2.rangeStart) (runUpload env C frags).log ∧
    ∀ r, (runUpload env C frags).log.head? = some r → r.rangeStart = 0 := by
  refine ⟨uploadLoop_308 env sb chunk n ri h, (runUpload_trace env C frags).chain_le, ?_⟩
  intro r hr
  have := (runUpload_trace env C frags).head_rangeStart r hr
  simpa using this

theorem c4_advance_on_308_witness :
    ((constEnv 308 "" 3).server 0).status = 308 ∧
    (uploadLoop (constEnv 308 "" 3) 0 [9] 3 0 =
      { out := AttemptOut.advanced
        log := [mkPut "https://upload.example/session" 0 [9] 3]
        reqIndex := 1
        startByte := 1 } ∧
    List.Chain' (fun r1 r2 => r1.rangeStart ≤ r2.rangeStart)
      (runUpload (constEnv 308 "" 3) 2 [[1, 2], [3]]).log ∧
    ∀ r, (runUpload (constEnv 308 "" 3) 2 [[1, 2], [3]]).log.head? = some r →
      r.rangeStart = 0) :=
  ⟨rfl, c4_advance_on_308 (constEnv 308 "" 3) 2 [[1, 2], [3]] 0 [9] 3 0 rfl⟩

/-- C5: a 200 response to a chunk PUT resolves the operation with the
response body parsed as JSON when possible and with the raw text
otherwise, and issues no further requests: the upload step returns
`resolved` after exactly that one PUT, and at run level a 200 consumed at
request index `i` makes the whole request log stop at exactly `i + 1`
entries with the run resolved on that response's body. -/
theorem c5_resolve_on_200 (env : Env α) (C : Nat) (frags : List (List Byte))
    (sb : Nat) (chunk : List Byte) (n ri i : Nat)
    (hstep : (env.server ri).status = 200)
    (hi : (env.server i).status = 200)
    (hlt : i < (runUpload env C frags).log.length) :
    uploadLoop env sb chunk n ri =
      { out := AttemptOut.resolved (parseOrRaw env.parse (env.server ri).body)
        log := [mkPut env.location sb chunk env.dataSize]
        reqIndex := ri + 1
        startByte := sb } ∧
    (runUpload env C frags).log.length = i + 1 ∧
    (runUpload env C frags).result =
      RunResult.resolved (parseOrRaw env.parse (env.server i).body) := by
  rcases runUpload_stop200 env C frags i hi hlt with ⟨ha, hb⟩
  exact ⟨uploadLoop_200 env sb chunk n ri hstep, ha, hb⟩

theorem c5_resolve_on_200_witness :
    ((constEnv 200 "done" 2).server 0).status = 200 ∧
    0 < (runUpload (constEnv 200 "done" 2) 1 [[1, 2]]).log.length ∧
    (uploadLoop (constEnv 200 "done" 2) 0 [1] 3 0 =
      { out := AttemptOut.resolved (JsonOrText.text "done")
        log := [mkPut "https://upload.example/session" 0 [1] 2]
        reqIndex := 1
        startByte := 0 } ∧
    (runUpload (constEnv 200 "done" 2) 1 [[1, 2]]).log.length = 0 + 1 ∧
    (runUpload (constEnv 200 "done" 2) 1 [[1, 2]]).result =
      RunResult.resolved (JsonOrText.text "done")) :=
  ⟨rfl, by decide,
   c5_resolve_on_200 (constEnv 200 "done" 2) 1 [[1, 2]] 0 [1] 3 0 0 rfl rfl (by decide)⟩

/-- C6: all PUT attempts the retry loop issues for one chunk are
identical: every entry of the attempt log is the very same request (same
URL, same Content-Range header, same body bytes) built from the chunk and
offset fixed at entry.  The loop takes no fragment input at all, so no
bytes are read from the source between attempts. -/
theorem c6_retries_identical (env : Env α) (sb : Nat) (chunk : List Byte) (n ri : Nat) :
    (uploadLoop env sb chunk n ri).log =
      List.replicate (uploadLoop env sb chunk n ri).log.length
        (mkPut env.location sb chunk env.dataSize) :=
  uploadLoop_log_replicate env sb chunk n ri

/-- C7 counterexample: the validation in line 32 checks `dataSize == 0`,
not `dataSize ≤ 0`.  With `dataSize = -1` and otherwise valid
configuration the operation passes validation and proceeds to the session
POST (one network call), failing there with a session error rather than
failing immediately with a configuration error and zero network calls. -/
theorem c7_counterexample :
    resumableUpload (fun _ => (none : Option Nat)) cfgNegativeSize 2 sess500
      (fun _ => { status := 500, body := "e" }) [] =
      { result := OpResult.sessionError 500 7, gets := 0, posts := 1, log := [] } := by
  decide

/-- C7 (amended): if `resumableUrl` is missing or empty, or `dataSize` is
missing or equal to 0 (the code checks `dataSize == 0`, so a negative
value passes), or both or neither of `filePath` and `fileUrl` are given,
the operation fails immediately with a configuration error before any
network request is issued: no source GET, no session POST, no chunk PUT. -/
theorem c7_config_validation (parse : String → Option α) (c : Config) (C : Nat)
    (sess : SessionResponse β) (server : Nat → Response) (frags : List (List Byte))
    (h : c.resumableUrl = "" ∨ c.dataSize = 0 ∨
      ((c.filePath = "" ∧ c.fileUrl = "") ∨ (c.filePath ≠ "" ∧ c.fileUrl ≠ ""))) :
    ∃ e, resumableUpload parse c C sess server frags =
      { result := OpResult.configError e, gets := 0, posts := 0, log := [] } := by
  by_cases hru : c.resumableUrl = "" ∨ c.dataSize = 0
  · exact ⟨ConfigError.missingResumableUrlOrDataSize,
      by simp only [resumableUpload, if_pos hru]⟩
  · rcases h with h | h | h
    · exact absurd (Or.inl h) hru
    · exact absurd (Or.inr h) hru
    · refine ⟨ConfigError.missingSource, ?_⟩
      have h1 : ¬(c.filePath ≠ "" ∧ c.fileUrl = "") := by
        rcases h with ⟨ha, hb⟩ | ⟨ha, hb⟩
        · exact fun hx => hx.1 ha
        · exact fun hx => hb hx.2
      have h2 : ¬(c.filePath = "" ∧ c.fileUrl ≠ "") := by
        rcases h with ⟨ha, hb⟩ | ⟨ha, hb⟩
        · exact fun hx => hx.2 hb
        · exact fun hx => ha hx.1
      simp only [resumableUpload, if_neg hru, if_neg h1, if_neg h2]

theorem c7_config_validation_witness :
    (cfgNoSource.resumableUrl = "" ∨ cfgNoSource.dataSize = 0 ∨
      ((cfgNoSource.filePath = "" ∧ cfgNoSource.fileUrl = "") ∨
       (cfgNoSource.filePath ≠ "" ∧ cfgNoSource.fileUrl ≠ ""))) ∧
    ∃ e, resumableUpload (fun _ => (none : Option Nat)) cfgNoSource 2 sess500
      (fun _ => { status := 500, body := "e" }) [] =
      { result := OpResult.configError e, gets := 0, posts := 0, log := [] } :=
  ⟨Or.inr (Or.inr (Or.inl ⟨rfl, rfl⟩)),
   c7_config_validation (fun _ => (none : Option Nat)) cfgNoSource 2 sess500
     (fun _ => { status := 500, body := "e" }) [] (Or.inr (Or.inr (Or.inl ⟨rfl, rfl⟩)))⟩

/-- C8: with a valid configuration, a non-2xx response to the session-open
POST rejects the operation with exactly that response's status and its
parsed body, after exactly one POST (no retry of the negotiation), and no
chunk PUT request is ever issued. -/
theorem c8_session_failure (parse : String → Option α) (c : Config) (C : Nat)
    (sess : SessionResponse β) (server : Nat → Response) (frags : List (List Byte))
    (hurl : c.resumableUrl ≠ "") (hsize : c.dataSize ≠ 0)
    (hsrc : (c.filePath ≠ "" ∧ c.fileUrl = "") ∨ (c.filePath = "" ∧ c.fileUrl ≠ ""))
    (hbad : ¬(200 ≤ sess.status ∧ sess.status ≤ 299)) :
    (resumableUpload parse c C sess server frags).result =
      OpResult.sessionError sess.status sess.bodyJson ∧
    (resumableUpload parse c C sess server frags).posts = 1 ∧
    (resumableUpload parse c C sess server frags).log = [] := by
  have hru : ¬(c.resumableUrl = "" ∨ c.dataSize = 0) := by
    rintro (hx | hx)
    exacts [hurl hx, hsize hx]
  rcases hsrc with ⟨h1, h2⟩ | ⟨h1, h2⟩
  · simp only [resumableUpload, if_neg hru, if_pos (⟨h1, h2⟩ : c.filePath ≠ "" ∧ c.fileUrl = ""),
      negotiateThenUpload, if_neg hbad]
    exact ⟨trivial, trivial, trivial⟩
  · have hno : ¬(c.filePath ≠ "" ∧ c.fileUrl = "") := fun hx => hx.1 h1
    simp only [resumableUpload, if_neg hru, if_neg hno,
      if_pos (⟨h1, h2⟩ : c.filePath = "" ∧ c.fileUrl ≠ ""),
      negotiateThenUpload, if_neg hbad]
    exact ⟨trivial, trivial, trivial⟩

theorem c8_session_failure_witness :
    cfgFileSource.resumableUrl ≠ "" ∧ cfgFileSource.dataSize ≠ 0 ∧
    ((cfgFileSource.filePath ≠ "" ∧ cfgFileSource.fileUrl = "") ∨
      (cfgFileSource.filePath = "" ∧ cfgFileSource.fileUrl ≠ "")) ∧
    ¬(200 ≤ sess500.status ∧ sess500.status ≤ 299) ∧
    ((resumableUpload (fun _ => (none : Option Nat)) cfgFileSource 2 sess500
        (fun _ => { status := 500, body := "e" }) []).result =
      OpResult.sessionError 500 7 ∧
    (resumableUpload (fun _ => (none : Option Nat)) cfgFileSource 2 sess500
        (fun _ => { status := 500, body := "e" }) []).posts = 1 ∧
    (resumableUpload (fun _ => (none : Option Nat)) cfgFileSource 2 sess500
        (fun _ => { status := 500, body := "e" }) []).log = []) :=
  ⟨by decide, by decide, Or.inl ⟨by decide, rfl⟩, by decide,
   c8_session_failure (fun _ => (none : Option Nat)) cfgFileSource 2 sess500
     (fun _ => { status := 500, body := "e" }) [] (by decide) (by decide)
     (Or.inl ⟨by decide, rfl⟩) (by decide)⟩

/-- C9: every chunk PUT request of a run, under any server behaviour, goes
to the session URL, carries the Content-Range header exactly of the form
`bytes {start}-{end}/{totalSize}` with `end = start + length(body) - 1`
and the configured total size, and its body is the chunk bytes unmodified;
moreover (`ReqTrace`) each request's `start` is exactly the number of
bytes confirmed so far: the offset starts at 0 and advances only by the
length of the body just acknowledged. -/
theorem c9_request_shape (env : Env α) (C : Nat) (frags : List (List Byte)) :
    (∀ r ∈ (runUpload env C frags).log,
      r.url = env.location ∧
      r.rangeTotal = env.dataSize ∧
      r.rangeEnd = r.rangeStart + (r.body.length : Int) - 1 ∧
      r.contentRange = "bytes " ++ toString r.rangeStart ++ "-" ++ toString r.rangeEnd
        ++ "/" ++ toString r.rangeTotal) ∧
    ReqTrace 0 (runUpload env C frags).log (runUpload env C frags).startByte := by
  refine ⟨?_, runUpload_trace env C frags⟩
  intro r hr
  obtain ⟨s, c, rfl⟩ := runUpload_mem env C frags r hr
  exact ⟨rfl, rfl, rfl, rfl⟩

/-- C10: a 308 response to the final chunk (the leftover uploaded by the
end handler after the source is exhausted) leaves the operation in a
non-terminal state: the end handler returns `hung` after that single PUT
(the promise is neither resolved nor rejected and no further request is
issued), and a whole run whose every response is 308 — in particular the
final chunk's — ends with result `hung`. -/
theorem c10_final_chunk_308_hangs (env : Env α) (C : Nat) (frags : List (List Byte))
    (buffer : List Byte) (sb ri : Nat)
    (h : ∀ i, (env.server i).status = 308) (hb : buffer ≠ []) :
    endPhase env buffer sb ri =
      { result := RunResult.hung
        log := [mkPut env.location sb buffer env.dataSize]
        startByte := sb + buffer.length
        reqIndex := ri + 1 } ∧
    (runUpload env C frags).result = RunResult.hung := by
  refine ⟨?_, runUpload_hung env C frags h⟩
  have hb' : 0 < buffer.length := List.length_pos.2 hb
  simp only [endPhase, if_pos hb', uploadLoop_308 env sb buffer 3 ri (h ri)]

theorem c10_final_chunk_308_hangs_witness :
    (∀ i, ((constEnv 308 "" 1).server i).status = 308) ∧ ([7] : List Byte) ≠ [] ∧
    (endPhase (constEnv 308 "" 1) [7] 0 0 =
      { result := RunResult.hung
        log := [mkPut "https://upload.example/session" 0 [7] 1]
        startByte := 1
        reqIndex := 1 } ∧
    (runUpload (constEnv 308 "" 1) 2 [[5]]).result = RunResult.hung) :=
  ⟨fun _ => rfl, by decide,
   c10_final_chunk_308_hangs (constEnv 308 "" 1) 2 [[5]] [7] 0 0 (fun _ => rfl) (by decide)⟩

end ResumableUpload
